import Mathlib

/-!
Verification of the Rotation Engine of `ThreeCardImageFader`
(`src/components/ThreeCardImageFader.jsx`).

The component keeps an array of three card states, each holding two image
layers (`a`, `b`) and a flag `showA` saying which layer is visible.  A
periodic timer picks a random card, selects a new image from the configured
pool, writes it into the hidden layer of that card, and flips the flag.

JavaScript values are embedded as follows:
* an image layer (`string | null`) becomes `Option String` (`none` = `null`);
* JS truthiness of such a value (`!newImg`, `.filter(Boolean)`) is
  `truthyS`, false exactly on `null` and the empty string;
* the ambient random source (`Math.floor(Math.random() * n)`) becomes an
  explicit stream of draws; a draw is reduced `% n`, so quantifying over all
  streams quantifies over all possible in-range index sequences;
* the unbounded `while` loop of `pickRandomExcluding` is given explicit
  fuel and returns `none` when the fuel runs out, so a result of `none`
  for every fuel amount exhibits divergence of the source loop.
-/

namespace TCF

/-- State of one card (`{ a, b, showA }` objects of the component state). -/
structure Card where
  a : Option String
  b : Option String
  showA : Bool
deriving DecidableEq

/-- JS truthiness of a `string | null` value: `null` and `""` are falsy. -/
def truthyS : Option String → Bool
  | none => false
  | some s => s != ""

/-- `c.showA ? c.a : c.b` — the currently visible image of a card. -/
def visibleOf (c : Card) : Option String :=
  if c.showA then c.a else c.b

/-- `prev.map((c) => (c.showA ? c.a : c.b)).filter(Boolean)` (lines 284-288):
the list of currently visible, truthy images.  The source wraps this in a
`Set`, which is only ever used for membership tests, so the list suffices. -/
def visibleList (cards : List Card) : List String :=
  ((cards.map visibleOf).filter truthyS).filterMap id

/-- `pickRandomExcluding`'s `while` loop (lines 32-36): draw random indices
until the drawn element differs from `exclude`.  `rnd k % list.length` is
the `k`-th draw; the default of `getD` is never used because the caller
guarantees the list is non-empty.  `none` means the fuel ran out, i.e. the
source loop has not terminated within `fuel` iterations. -/
def pickLoop (list : List String) (exclude : Option String) (rnd : Nat → Nat) :
    Nat → Nat → Option (Option String)
  | 0, _ => none
  | fuel + 1, k =>
    let candidate := list.getD (rnd k % list.length) ""
    if (some candidate : Option String) = exclude then
      pickLoop list exclude rnd fuel (k + 1)
    else
      some (some candidate)

/-- `pickRandomExcluding(list, exclude)` (lines 29-38).  The outer `Option`
is termination (`none` = the `while` loop still running after `fuel`
draws); the inner `Option String` is the JS return value (`none` = `null`). -/
def pickRandomExcluding (list : List String) (exclude : Option String)
    (rnd : Nat → Nat) (fuel : Nat) : Option (Option String) :=
  if list.isEmpty then some none
  else if list.length = 1 then some list[0]?
  else pickLoop list exclude rnd fuel 0

/-- `pickRandomNotIn(list, excludeSet)` (lines 51-57): one random draw from
the pool entries not in the exclusion set; `null` if the list is empty or
no candidate remains. -/
def pickRandomNotIn (list excludeSet : List String) (r : Nat) : Option String :=
  if list.isEmpty then none
  else
    let candidates := list.filter fun x => !(excludeSet.contains x)
    if candidates.isEmpty then none
    else candidates[r % candidates.length]?

/-- The selection chain of the tick callback (lines 296-303):
`pickRandomNotIn`, falling back (on a falsy result) to
`pickRandomExcluding`, falling back (again on a falsy result) to the
card's current visible image.  This is the spec's `selectNext`.
The outer `Option` propagates non-termination of `pickRandomExcluding`. -/
def selectNext (images vs : List String) (currentVisible : Option String)
    (r : Nat) (rExc : Nat → Nat) (fuel : Nat) : Option (Option String) :=
  if truthyS (pickRandomNotIn images vs r) then
    some (pickRandomNotIn images vs r)
  else
    match pickRandomExcluding images currentVisible rExc fuel with
    | none => none
    | some n2 => some (if truthyS n2 then n2 else currentVisible)

/-- Lines 307-312: write the new image into the hidden layer of the card
and flip `showA` (`{...currentCard, b: newImg, showA: false}` /
`{...currentCard, a: newImg, showA: true}`). -/
def flipWrite (c : Card) (v : Option String) : Card :=
  if c.showA then { a := c.a, b := v, showA := false }
  else { a := v, b := c.b, showA := true }

/-- Body of the `setInterval` callback (lines 278-315): pick a random
target card (`t % 3` embeds `Math.floor(Math.random()*3)`), compute the
visible set, select the next image, write it to the hidden layer of the
target and flip its flag.  The `none` branch of the index lookup is the
`if (!currentCard) return prev` guard (line 292). -/
def tickCore (images : List String) (t r : Nat) (rExc : Nat → Nat)
    (fuel : Nat) (prev : List Card) : Option (List Card) :=
  match prev[t % 3]? with
  | none => some prev
  | some currentCard =>
    match selectNext images (visibleList prev) (visibleOf currentCard) r rExc fuel with
    | none => none
    | some newImg => some (prev.set (t % 3) (flipWrite currentCard newImg))

/-- The schedule-level tick transition.  The effect at lines 274-321
registers the interval callback only when the pool is non-empty
(`if (!images || images.length === 0) return;`, line 275), so a timer
period elapsing while the pool is empty leaves the card state unchanged;
with a non-empty pool the callback body `tickCore` runs. -/
def tick (images : List String) (t r : Nat) (rExc : Nat → Nat)
    (fuel : Nat) (prev : List Card) : Option (List Card) :=
  if images.isEmpty then some prev
  else tickCore images t r rExc fuel prev

/-! ### Basic lemmas about the visible list -/

/-- Contribution of a single card to `visibleList`. -/
def visEntry (c : Card) : List String :=
  match visibleOf c with
  | none => []
  | some s => if s = "" then [] else [s]

theorem visibleList_nil : visibleList [] = [] := rfl

theorem visibleList_cons (c : Card) (l : List Card) :
    visibleList (c :: l) = visEntry c ++ visibleList l := by
  unfold visibleList visEntry
  rcases hv : visibleOf c with _ | s
  · simp [hv, truthyS]
  · by_cases hs : s = ""
    · simp [hv, truthyS, hs]
    · simp [hv, truthyS, hs]

theorem mem_visEntry {a : String} {c : Card} :
    a ∈ visEntry c ↔ visibleOf c = some a ∧ a ≠ "" := by
  unfold visEntry
  rcases hv : visibleOf c with _ | s
  · simp
  · show a ∈ (if s = "" then ([] : List String) else [s]) ↔ some s = some a ∧ a ≠ ""
    by_cases hs : s = ""
    · rw [if_pos hs]
      constructor
      · intro h
        exact absurd h (List.not_mem_nil a)
      · rintro ⟨h1, h2⟩
        injection h1 with h1
        subst h1
        exact absurd hs h2
    · rw [if_neg hs]
      constructor
      · intro h
        rw [List.mem_singleton] at h
        subst h
        exact ⟨rfl, hs⟩
      · rintro ⟨h1, _⟩
        injection h1 with h1
        subst h1
        exact List.mem_singleton_self _

theorem mem_visibleList {a : String} : ∀ {L : List Card},
    a ∈ visibleList L ↔ ∃ c ∈ L, visibleOf c = some a ∧ a ≠ ""
  | [] => by simp [visibleList_nil]
  | c :: l => by
    rw [visibleList_cons]
    simp [List.mem_append, mem_visEntry, @mem_visibleList a l]

theorem visibleList_length_le (L : List Card) :
    (visibleList L).length ≤ L.length := by
  unfold visibleList
  calc (((L.map visibleOf).filter truthyS).filterMap id).length
      ≤ ((L.map visibleOf).filter truthyS).length := List.length_filterMap_le _ _
    _ ≤ (L.map visibleOf).length := List.length_filter_le _ _
    _ = L.length := List.length_map _ _

theorem flipWrite_visibleOf (c : Card) (v : Option String) :
    visibleOf (flipWrite c v) = v := by
  unfold flipWrite visibleOf
  by_cases h : c.showA <;> simp [h]

theorem visEntry_of_visible {c : Card} {s : String}
    (hv : visibleOf c = some s) (hs : s ≠ "") : visEntry c = [s] := by
  unfold visEntry
  rw [hv]
  simp [hs]

/-- Replacing one card by a card whose visible image is fresh (not truthy-visible
anywhere) preserves distinctness of the visible list. -/
theorem visibleList_set_nodup : ∀ (L : List Card) (i : Nat) (c : Card) (s : String),
    visibleOf c = some s → s ≠ "" → s ∉ visibleList L → (visibleList L).Nodup →
    (visibleList (L.set i c)).Nodup
  | [], _, _, _, _, _, _, _ => by simp [visibleList_nil]
  | x :: l, 0, c, s, hv, hs, hmem, hnd => by
    rw [List.set_cons_zero, visibleList_cons, visEntry_of_visible hv hs]
    rw [visibleList_cons, List.nodup_append] at hnd
    rw [visibleList_cons, List.mem_append] at hmem
    refine List.nodup_append.mpr ⟨List.nodup_singleton s, hnd.2.1, ?_⟩
    intro a ha
    rw [List.mem_singleton] at ha
    subst ha
    exact fun hc => hmem (Or.inr hc)
  | x :: l, i + 1, c, s, hv, hs, hmem, hnd => by
    rw [List.set_cons_succ, visibleList_cons]
    rw [visibleList_cons, List.nodup_append] at hnd
    rw [visibleList_cons, List.mem_append] at hmem
    refine List.nodup_append.mpr ⟨hnd.1, ?_, ?_⟩
    · exact visibleList_set_nodup l i c s hv hs (fun hc => hmem (Or.inr hc)) hnd.2.1
    · intro a ha hset
      rcases mem_visibleList.mp hset with ⟨c2, hc2, hvis2, hane⟩
      rcases List.mem_or_eq_of_mem_set hc2 with hc2l | rfl
      · exact hnd.2.2 ha (mem_visibleList.mpr ⟨c2, hc2l, hvis2, hane⟩)
      · rw [hv] at hvis2
        cases hvis2
        exact hmem (Or.inl ha)

/-! ### Specification of the random pickers -/

theorem pickRandomNotIn_spec (list ex : List String) (r : Nat)
    (hx : ∃ x ∈ list, x ∉ ex) :
    ∃ s, pickRandomNotIn list ex r = some s ∧ s ∈ list ∧ s ∉ ex := by
  obtain ⟨x, hxl, hxe⟩ := hx
  have hne : list ≠ [] := fun h => by subst h; exact absurd hxl (List.not_mem_nil x)
  have hcand : x ∈ list.filter fun y => !(ex.contains y) := by
    rw [List.mem_filter]
    exact ⟨hxl, by simpa using hxe⟩
  have hcne : (list.filter fun y => !(ex.contains y)) ≠ [] :=
    fun h => by rw [h] at hcand; exact absurd hcand (List.not_mem_nil x)
  have hlen : 0 < (list.filter fun y => !(ex.contains y)).length :=
    List.length_pos.mpr hcne
  have hidx : r % (list.filter fun y => !(ex.contains y)).length <
      (list.filter fun y => !(ex.contains y)).length := Nat.mod_lt _ hlen
  refine ⟨(list.filter fun y => !(ex.contains y))[r % (list.filter fun y => !(ex.contains y)).length],
    ?_, ?_, ?_⟩
  · unfold pickRandomNotIn
    rw [if_neg (by simpa using hne)]
    simp only
    rw [if_neg (by simpa using hcne)]
    exact List.getElem?_eq_getElem hidx
  · exact (List.mem_filter.mp (List.getElem_mem hidx)).1
  · have := (List.mem_filter.mp (List.getElem_mem hidx)).2
    simpa using this

theorem selectNext_of_truthy {images vs : List String} {s : String}
    {cur : Option String} {r : Nat} {rExc : Nat → Nat} {fuel : Nat}
    (hp : pickRandomNotIn images vs r = some s) (hs : s ≠ "") :
    selectNext images vs cur r rExc fuel = some (some s) := by
  unfold selectNext
  rw [hp]
  have : truthyS (some s) = true := by simp [truthyS, hs]
  rw [this]
  simp

/-- If every list entry equals the excluded value and the list is non-empty,
the `while` loop of `pickRandomExcluding` never exits, whatever the random
draws: no amount of fuel produces a result. -/
theorem pickLoop_all_eq {list : List String} {e : String}
    (hall : ∀ x ∈ list, x = e) (hne : list ≠ []) (rnd : Nat → Nat) :
    ∀ fuel k, pickLoop list (some e) rnd fuel k = none
  | 0, _ => rfl
  | fuel + 1, k => by
    have hlen : 0 < list.length := List.length_pos.mpr hne
    have hidx : rnd k % list.length < list.length := Nat.mod_lt _ hlen
    have hcand : list.getD (rnd k % list.length) "" = e := by
      rw [List.getD_eq_getElem?_getD, List.getElem?_eq_getElem hidx]
      exact hall _ (List.getElem_mem hidx)
    unfold pickLoop
    simp only [hcand, if_true]
    exact pickLoop_all_eq hall hne rnd fuel (k + 1)

/-- Unfolding of `tick` when the pool is non-empty, the target index is
in range, and the selection chain returns a value. -/
theorem tick_eq_of_sel {images : List String} {t r : Nat} {rExc : Nat → Nat}
    {fuel : Nat} {prev : List Card} {c : Card} {v : Option String}
    (hne : images ≠ []) (hget : prev[t % 3]? = some c)
    (hsel : selectNext images (visibleList prev) (visibleOf c) r rExc fuel = some v) :
    tick images t r rExc fuel prev = some (prev.set (t % 3) (flipWrite c v)) := by
  unfold tick tickCore
  rw [if_neg (by simpa using hne)]
  simp only [hget, hsel]

/-- C2: for a pool of two equal entries with that value visible and current,
the selection chain never returns: `pickRandomExcluding`'s `while` loop
spins forever (modelled: every fuel amount is exhausted), where the claim
and the spec say it should return the current image unchanged. -/
theorem C2_duplicate_pool_diverges (r fuel : Nat) (rExc : Nat → Nat) :
    selectNext ["a", "a"] ["a"] (some "a") r rExc fuel = none := by
  have h2 : pickRandomExcluding ["a", "a"] (some "a") rExc fuel = none := by
    show pickLoop ["a", "a"] (some "a") rExc fuel 0 = none
    exact pickLoop_all_eq (by decide) (by decide) rExc fuel 0
  unfold selectNext
  rw [show pickRandomNotIn ["a", "a"] ["a"] r = none from rfl, h2]
  rfl

/-- C3: a tick firing while the pool is empty leaves every card (both
layers and the `showA` flag) unchanged and produces a result (no
exception, no divergence). -/
theorem C3_empty_pool_noop (t r : Nat) (rExc : Nat → Nat) (fuel : Nat)
    (prev : List Card) : tick [] t r rExc fuel prev = some prev := rfl

/-- C7: with pool `["a","b","c","d"]` and visible set `{"a","b","c"}`, the
unique non-visible candidate `"d"` is selected, for every random draw. -/
theorem C7_unique_nonvisible (r : Nat) (rExc : Nat → Nat) (fuel : Nat) :
    selectNext ["a", "b", "c", "d"] ["a", "b", "c"] (some "a") r rExc fuel =
      some (some "d") := by
  have h1 : pickRandomNotIn ["a", "b", "c", "d"] ["a", "b", "c"] r = some "d" := by
    show ["d"][r % 1]? = some "d"
    rw [Nat.mod_one]
    decide
  exact selectNext_of_truthy h1 (by decide)

/-- Any value the fallback loop returns on pool `["a","b","c"]` excluding
`"a"` is `"b"` or `"c"`. -/
theorem pickLoop_abc (rExc : Nat → Nat) : ∀ fuel k w,
    pickLoop ["a", "b", "c"] (some "a") rExc fuel k = some w →
    w = some "b" ∨ w = some "c"
  | 0, k, w => by
    intro h
    exact absurd h (by simp [pickLoop])
  | fuel + 1, k, w => by
    intro h
    have h3 : rExc k % 3 = 0 ∨ rExc k % 3 = 1 ∨ rExc k % 3 = 2 := by omega
    unfold pickLoop at h
    rw [show (["a", "b", "c"] : List String).length = 3 from rfl] at h
    rcases h3 with h0 | h1 | h2
    · rw [h0] at h
      exact pickLoop_abc rExc fuel (k + 1) w h
    · rw [h1] at h
      have h4 : some (some "b") = some w := h
      injection h4 with h4
      exact Or.inl h4.symm
    · rw [h2] at h
      have h4 : some (some "c") = some w := h
      injection h4 with h4
      exact Or.inr h4.symm

/-- C6: with pool `["a","b","c"]`, all three images visible and the target
card showing `"a"`, every value the selection chain can return is `"b"` or
`"c"` — never `"a"`. -/
theorem C6_all_visible_fallback (r : Nat) (rExc : Nat → Nat) (fuel : Nat)
    (v : Option String)
    (h : selectNext ["a", "b", "c"] ["a", "b", "c"] (some "a") r rExc fuel = some v) :
    v = some "b" ∨ v = some "c" := by
  unfold selectNext at h
  rw [show pickRandomNotIn ["a", "b", "c"] ["a", "b", "c"] r = none from rfl] at h
  have h2 : (match pickLoop ["a", "b", "c"] (some "a") rExc fuel 0 with
      | none => (none : Option (Option String))
      | some n2 => some (if truthyS n2 then n2 else some "a")) = some v := h
  cases hp : pickLoop ["a", "b", "c"] (some "a") rExc fuel 0 with
  | none =>
    rw [hp] at h2
    exact absurd h2 (by simp)
  | some w =>
    rw [hp] at h2
    rcases pickLoop_abc rExc fuel 0 w hp with rfl | rfl
    · left
      have h4 : some (some "b") = some v := h2
      injection h4 with h4
      exact h4.symm
    · right
      have h4 : some (some "c") = some v := h2
      injection h4 with h4
      exact h4.symm

/-- Witness for C6 at a concrete draw sequence: the first fallback draw
hits index 1, so the chain returns `"b"`. -/
theorem C6_witness :
    (some "b" : Option String) = some "b" ∨ (some "b" : Option String) = some "c" :=
  C6_all_visible_fallback 0 (fun _ => 1) 1 (some "b") rfl

/-! ### Scheduler teardown

The cleanup of the interval effect (lines 318-320) calls
`clearInterval(timerRef.current)`.  Per the HTML timer semantics a cleared
interval never runs its callback again, even for a firing already queued:
the event loop checks that the timer id is still registered before
invoking the handler.  `TimerWorld` models that registry. -/

structure TimerWorld where
  active : List Nat
deriving DecidableEq

/-- `setInterval`: register a timer id. -/
def setIntervalW (w : TimerWorld) (tid : Nat) : TimerWorld := ⟨tid :: w.active⟩

/-- `clearInterval(tid)`: deregister the id (idempotent). -/
def clearIntervalW (w : TimerWorld) (tid : Nat) : TimerWorld :=
  ⟨w.active.filter fun i => decide (i ≠ tid)⟩

/-- A queued firing of timer `tid`: the handler (the tick callback) is
applied only if the id is still registered; otherwise the card state is
left untouched. -/
def fireTimer (w : TimerWorld) (tid : Nat) (images : List String) (t r : Nat)
    (rExc : Nat → Nat) (fuel : Nat) (cards : List Card) : Option (List Card) :=
  if tid ∈ w.active then tick images t r rExc fuel cards else some cards

/-- C9: after `clearInterval` (the effect cleanup / `stop()`), a firing of
that timer — even one already queued — leaves the card state unchanged. -/
theorem C9_teardown_safe (w : TimerWorld) (tid : Nat) (images : List String)
    (t r : Nat) (rExc : Nat → Nat) (fuel : Nat) (cards : List Card) :
    fireTimer (clearIntervalW w tid) tid images t r rExc fuel cards = some cards := by
  unfold fireTimer clearIntervalW
  rw [if_neg]
  intro hmem
  rw [List.mem_filter] at hmem
  exact absurd (of_decide_eq_true hmem.2) fun h => h rfl

/-! ### C1: the no-duplicate guarantee -/

/-- Pool for the C1 counterexample: four distinct non-empty identifiers
plus an empty-string entry (a legal JSON image entry). -/
def pool0 : List String := ["", "a", "b", "c", "d"]

/-- Cards showing the three distinct images `"a"`, `"b"`, `"c"`. -/
def cards0 : List Card :=
  [⟨some "a", some "a", true⟩, ⟨some "b", some "b", true⟩, ⟨some "c", some "c", true⟩]

/-- Fallback draw stream for the counterexample: always index 2 (`"b"`). -/
def rExc0 : Nat → Nat := fun _ => 2

/-- Card state after the counterexample tick: card 0 crossfades to `"b"`,
which card 1 is still showing. -/
def cards0x : List Card :=
  [⟨some "a", some "b", false⟩, ⟨some "b", some "b", true⟩, ⟨some "c", some "c", true⟩]

/-- C1 counterexample: `pool0` has at least 4 distinct identifiers and the
visible images of `cards0` are pairwise distinct, yet one tick (target card
0, first not-in draw hitting the empty-string candidate, fallback draw
hitting `"b"`) yields a state in which `"b"` is visible twice.
`pickRandomNotIn` returns `""`, which line 300's `if (!newImg)` treats as
a miss, so the code falls back to `pickRandomExcluding`, which may return
an image currently visible on another card. -/
theorem C1_counterexample :
    4 ≤ pool0.toFinset.card ∧ (visibleList cards0).Nodup ∧
    tick pool0 0 0 rExc0 1 cards0 = some cards0x ∧
    ¬ (visibleList cards0x).Nodup :=
  ⟨by decide, by decide, by decide, by decide⟩

/-- C1 (amended): for a pool with at least 4 distinct identifiers and no
empty-string entry, a tick on three cards with pairwise-distinct truthy
visible images completes and preserves that distinctness. -/
theorem C1_nodup_preserved (images : List String) (t r : Nat)
    (rExc : Nat → Nat) (fuel : Nat) (prev : List Card)
    (hlen : prev.length = 3) (hcard : 4 ≤ images.toFinset.card)
    (hempty : "" ∉ images) (hnd : (visibleList prev).Nodup) :
    ∃ next, tick images t r rExc fuel prev = some next ∧
      (visibleList next).Nodup := by
  have hne : images ≠ [] := by
    intro h
    subst h
    simp at hcard
  have hvslen : (visibleList prev).length ≤ 3 := by
    have := visibleList_length_le prev
    omega
  have hex : ∃ x ∈ images, x ∉ visibleList prev := by
    by_contra hall
    push_neg at hall
    have hsub : images.toFinset ⊆ (visibleList prev).toFinset := by
      intro a ha
      rw [List.mem_toFinset] at ha ⊢
      exact hall a ha
    have h1 := Finset.card_le_card hsub
    have h2 := List.toFinset_card_le (visibleList prev)
    omega
  obtain ⟨s, hpick, hsl, hsv⟩ := pickRandomNotIn_spec images (visibleList prev) r hex
  have hs : s ≠ "" := fun h => hempty (h ▸ hsl)
  have htm : t % 3 < prev.length := by
    rw [hlen]
    exact Nat.mod_lt _ (by norm_num)
  have hget : prev[t % 3]? = some prev[t % 3] := List.getElem?_eq_getElem htm
  refine ⟨_, tick_eq_of_sel hne hget (selectNext_of_truthy hpick hs), ?_⟩
  exact visibleList_set_nodup prev (t % 3) _ s (flipWrite_visibleOf _ _) hs hsv hnd

/-- Witness for the amended C1 on the concrete pool `["a","b","c","d"]`. -/
theorem C1_witness :
    ∃ next, tick ["a", "b", "c", "d"] 0 0 (fun _ => 0) 1 cards0 = some next ∧
      (visibleList next).Nodup :=
  C1_nodup_preserved ["a", "b", "c", "d"] 0 0 (fun _ => 0) 1 cards0
    (by decide) (by decide) (by decide) (by decide)

/-! ### C4: frame effect of one tick -/

/-- C4: whenever a tick on a non-empty pool and a three-card state
completes, it rewrites exactly the randomly chosen target card: the new
card keeps the previously active layer's image, carries the new image in
the previously hidden layer, has its flag flipped, and every other card is
unchanged. -/
theorem C4_frame_effect (images : List String) (t r : Nat) (rExc : Nat → Nat)
    (fuel : Nat) (prev next : List Card) (hlen : prev.length = 3)
    (hne : images ≠ []) (hrun : tick images t r rExc fuel prev = some next) :
    ∃ c v, prev[t % 3]? = some c ∧
      next = prev.set (t % 3) (flipWrite c v) ∧
      (flipWrite c v).showA = !c.showA ∧
      (c.showA = true → (flipWrite c v).a = c.a ∧ (flipWrite c v).b = v) ∧
      (c.showA = false → (flipWrite c v).b = c.b ∧ (flipWrite c v).a = v) ∧
      ∀ i, i ≠ t % 3 → next[i]? = prev[i]? := by
  have htm : t % 3 < prev.length := by
    rw [hlen]
    exact Nat.mod_lt _ (by norm_num)
  have hget : prev[t % 3]? = some prev[t % 3] := List.getElem?_eq_getElem htm
  unfold tick tickCore at hrun
  rw [if_neg (by simpa using hne)] at hrun
  rw [hget] at hrun
  simp only at hrun
  cases hsel : selectNext images (visibleList prev) (visibleOf prev[t % 3]) r rExc fuel with
  | none =>
    rw [hsel] at hrun
    exact absurd hrun (by simp)
  | some v =>
    rw [hsel] at hrun
    have hnext : next = prev.set (t % 3) (flipWrite prev[t % 3] v) := by
      have h4 : some (prev.set (t % 3) (flipWrite prev[t % 3] v)) = some next := hrun
      injection h4 with h4
      exact h4.symm
    refine ⟨prev[t % 3], v, hget, hnext, ?_, ?_, ?_, ?_⟩
    · unfold flipWrite
      by_cases hA : (prev[t % 3]).showA <;> simp [hA]
    · intro hA
      unfold flipWrite
      simp [hA]
    · intro hA
      unfold flipWrite
      simp [hA]
    · intro i hi
      rw [hnext]
      exact List.getElem?_set_ne (fun h => hi h.symm)

/-- Witness for C4: a concrete completed tick on pool `["a"]`. -/
theorem C4_witness :
    ∃ c v, (cards0[0 % 3]? = some c) ∧
      [⟨some "a", some "a", false⟩, ⟨some "b", some "b", true⟩,
        ⟨some "c", some "c", true⟩] = cards0.set (0 % 3) (flipWrite c v) ∧
      (flipWrite c v).showA = !c.showA ∧
      (c.showA = true → (flipWrite c v).a = c.a ∧ (flipWrite c v).b = v) ∧
      (c.showA = false → (flipWrite c v).b = c.b ∧ (flipWrite c v).a = v) ∧
      ∀ i, i ≠ 0 % 3 →
        ([⟨some "a", some "a", false⟩, ⟨some "b", some "b", true⟩,
          ⟨some "c", some "c", true⟩] : List Card)[i]? = cards0[i]? :=
  C4_frame_effect ["a"] 0 0 (fun _ => 0) 1 cards0
    [⟨some "a", some "a", false⟩, ⟨some "b", some "b", true⟩, ⟨some "c", some "c", true⟩]
    (by decide) (by decide) (by decide)

/-! ### C8: degenerate single-image pool -/

theorem pickRandomNotIn_empty_cand {list ex : List String} (r : Nat)
    (h : list.filter (fun y => !(ex.contains y)) = []) :
    pickRandomNotIn list ex r = none := by
  simp only [pickRandomNotIn, h]
  simp

theorem pickRandomNotIn_singleton_cand {list ex : List String} {s : String} (r : Nat)
    (h : list.filter (fun y => !(ex.contains y)) = [s]) (hne : list ≠ []) :
    pickRandomNotIn list ex r = some s := by
  simp only [pickRandomNotIn, h]
  rw [if_neg (by simpa using hne)]
  simp [Nat.mod_one]

theorem pickRandomExcluding_singleton (x : String) (ex : Option String)
    (rnd : Nat → Nat) (fuel : Nat) :
    pickRandomExcluding [x] ex rnd fuel = some (some x) := rfl

/-- On a one-entry pool the selection chain always hands back that entry:
either it is not visible (chosen by `pickRandomNotIn`), or the length-1
branch of `pickRandomExcluding` returns it, or — when it is the falsy
`""` — the final `if (!newImg) newImg = currentVisible` keeps the current
image, which is that same entry. -/
theorem selectNext_singleton (x : String) (vs : List String)
    (hx : x ≠ "" → x ∈ vs) (hvs : "" ∉ vs) (r : Nat) (rExc : Nat → Nat)
    (fuel : Nat) : selectNext [x] vs (some x) r rExc fuel = some (some x) := by
  by_cases hxe : x = ""
  · subst hxe
    have h1 : pickRandomNotIn [""] vs r = some "" :=
      pickRandomNotIn_singleton_cand r (by simp [List.filter_cons, hvs]) (by simp)
    unfold selectNext
    rw [h1]
    rfl
  · have h1 : pickRandomNotIn [x] vs r = none :=
      pickRandomNotIn_empty_cand r (by simp [List.filter_cons, hx hxe])
    unfold selectNext
    rw [h1, pickRandomExcluding_singleton]
    simp [truthyS]

/-- One tick on the singleton pool `[x]` preserves "every card's visible
image is `x`". -/
theorem tick_singleton_step (x : String) (t r : Nat) (rExc : Nat → Nat)
    (fuel : Nat) (cards : List Card)
    (h : ∀ c ∈ cards, visibleOf c = some x) :
    ∃ next, tick [x] t r rExc fuel cards = some next ∧
      ∀ c ∈ next, visibleOf c = some x := by
  cases hg : cards[t % 3]? with
  | none =>
    refine ⟨cards, ?_, h⟩
    unfold tick tickCore
    rw [if_neg (by simp)]
    simp only [hg]
  | some c =>
    have hcmem : c ∈ cards := by
      obtain ⟨hlt, heq⟩ := List.getElem?_eq_some.mp hg
      rw [← heq]
      exact List.getElem_mem hlt
    have hvc : visibleOf c = some x := h c hcmem
    have hvs1 : x ≠ "" → x ∈ visibleList cards :=
      fun hxe => mem_visibleList.mpr ⟨c, hcmem, hvc, hxe⟩
    have hvs2 : "" ∉ visibleList cards := by
      intro hcon
      rcases mem_visibleList.mp hcon with ⟨c2, _, _, habs⟩
      exact habs rfl
    have hsel : selectNext [x] (visibleList cards) (visibleOf c) r rExc fuel =
        some (some x) := by
      rw [hvc]
      exact selectNext_singleton x _ hvs1 hvs2 r rExc fuel
    refine ⟨_, tick_eq_of_sel (by simp) hg hsel, ?_⟩
    intro c2 hc2
    rcases List.mem_or_eq_of_mem_set hc2 with hc2m | rfl
    · exact h c2 hc2m
    · exact flipWrite_visibleOf c (some x)

/-- Parameters of one tick: target draw, not-in draw, fallback draw
stream, and loop fuel. -/
structure TickParams where
  t : Nat
  r : Nat
  rExc : Nat → Nat
  fuel : Nat

/-- Run a sequence of scheduled ticks; `none` if any tick diverges. -/
def runTicks (images : List String) : List TickParams → List Card → Option (List Card)
  | [], cards => some cards
  | p :: rest, cards =>
    match tick images p.t p.r p.rExc p.fuel cards with
    | none => none
    | some cards2 => runTicks images rest cards2

/-- C8: with a pool of exactly one identifier, every sequence of ticks
completes and every card's visible image stays that identifier. -/
theorem C8_degenerate_stability (x : String) :
    ∀ (ps : List TickParams) (cards : List Card),
    (∀ c ∈ cards, visibleOf c = some x) →
    ∃ res, runTicks [x] ps cards = some res ∧ ∀ c ∈ res, visibleOf c = some x
  | [], cards, h => ⟨cards, rfl, h⟩
  | p :: rest, cards, h => by
    obtain ⟨next, hstep, hnextvis⟩ := tick_singleton_step x p.t p.r p.rExc p.fuel cards h
    obtain ⟨res, hrun, hres⟩ := C8_degenerate_stability x rest next hnextvis
    refine ⟨res, ?_, hres⟩
    unfold runTicks
    simp only [hstep]
    exact hrun

/-- Witness for C8 on three cards all showing `"a"` and one tick. -/
theorem C8_witness :
    ∃ res, runTicks ["a"] [⟨0, 0, fun _ => 0, 1⟩]
        [⟨some "a", some "a", true⟩, ⟨some "a", some "a", true⟩,
          ⟨some "a", some "a", true⟩] = some res ∧
      ∀ c ∈ res, visibleOf c = some "a" :=
  C8_degenerate_stability "a" [⟨0, 0, fun _ => 0, 1⟩]
    [⟨some "a", some "a", true⟩, ⟨some "a", some "a", true⟩,
      ⟨some "a", some "a", true⟩]
    (by decide)

/-! ### Configuration normalization (lines 215-253)

Decoded JSON values are embedded as `JSVal`.  JS numbers are embedded as
`JSNum`: NaN, the two infinities, or a finite value (an exact rational —
the claims only involve finiteness and sign, never float rounding).
`undef` is the `undefined` produced by reading an absent property.
`Number(...)` coercion of arrays and objects goes through JS `ToPrimitive`
and is not modelled (embedded as NaN); the timing fields the spec and the
claims exercise are numbers, strings, `null`, or absent.  The string
grammar accepted by `parseNumber` is signed decimal literals (with
optional fraction); exponent, hex and `Infinity` forms are not modelled. -/

inductive JSNum where
  | nan
  | posInf
  | negInf
  | finite (q : ℚ)
deriving DecidableEq

inductive JSVal where
  | null
  | undef
  | bool (b : Bool)
  | num (n : JSNum)
  | str (s : String)
  | arr (elems : List JSVal)
  | obj (fields : List (String × JSVal))

/-- Value of decimal digit characters read left to right. -/
def digitsToNat (cs : List Char) : Nat :=
  cs.foldl (fun acc c => acc * 10 + (c.toNat - 48)) 0

/-- ASCII whitespace, the trimming JS performs before numeric coercion
(JS also strips rarer Unicode space characters, which no claim uses). -/
def isSpaceChar (c : Char) : Bool :=
  c = ' ' || c = '\t' || c = '\n' || c = '\r'

/-- Strip leading and trailing whitespace characters. -/
def trimChars (cs : List Char) : List Char :=
  ((cs.dropWhile isSpaceChar).reverse.dropWhile isSpaceChar).reverse

/-- JS string-to-number coercion for the decimal subset: trimmed empty
string is 0, optionally signed digits with an optional fraction part,
anything else is NaN. -/
def parseNumber (s : String) : JSNum :=
  let cs := trimChars s.toList
  if cs.isEmpty then JSNum.finite 0
  else
    let body := match cs with
      | '-' :: rest => (true, rest)
      | '+' :: rest => (false, rest)
      | rest => (false, rest)
    let intDigits := body.2.takeWhile Char.isDigit
    let afterInt := body.2.dropWhile Char.isDigit
    let fracPart := match afterInt with
      | '.' :: rest => (rest.takeWhile Char.isDigit, rest.dropWhile Char.isDigit)
      | rest => ([], rest)
    if fracPart.2 ≠ [] then JSNum.nan
    else if intDigits.isEmpty && fracPart.1.isEmpty then JSNum.nan
    else
      let mag : ℚ := (digitsToNat intDigits : ℚ) +
        (digitsToNat fracPart.1 : ℚ) / ((10 : ℚ) ^ fracPart.1.length)
      JSNum.finite (if body.1 then -mag else mag)

/-- JS `Number(x)` coercion. -/
def toNumber : JSVal → JSNum
  | JSVal.null => JSNum.finite 0
  | JSVal.undef => JSNum.nan
  | JSVal.bool b => JSNum.finite (if b then 1 else 0)
  | JSVal.num n => n
  | JSVal.str s => parseNumber s
  | JSVal.arr _ => JSNum.nan
  | JSVal.obj _ => JSNum.nan

/-- Property access `data.k`: first field with that key, `undefined` when
absent. -/
def getField (fields : List (String × JSVal)) (k : String) : JSVal :=
  match List.lookup k fields with
  | some v => v
  | none => JSVal.undef

/-- The `??` operand test: `null` and `undefined` are nullish. -/
def nullish : JSVal → Bool
  | JSVal.null => true
  | JSVal.undef => true
  | _ => false

/-- `a ?? b`. -/
def coalesce (a b : JSVal) : JSVal := if nullish a then b else a

/-- `Number.isFinite(v) && v > 0`. -/
def posFinite : JSNum → Bool
  | JSNum.finite q => decide (0 < q)
  | _ => false

/-- `Number.isFinite(v) && v > 0 ? v : dflt` (lines 234-235). -/
def chooseTiming (n : JSNum) (dflt : ℚ) : ℚ :=
  match n with
  | JSNum.finite q => if 0 < q then q else dflt
  | _ => dflt

/-- The normalized configuration the component state receives. -/
structure NormResult where
  images : List JSVal
  intervalMs : ℚ
  fadeMs : ℚ

/-- Configuration normalization (the `.then((data) => ...)` handler,
lines 219-242): a plain array is the legacy pool with default timing; an
object contributes `images` (when an array) and timing values taken from
`INTERVAL_MS ?? intervalMs` / `FADE_MS ?? fadeMs` when finite and
positive; anything else yields the empty pool and both defaults.  The
fetch-failure path (lines 244-249) sets the same empty-pool defaults. -/
def normalizeConfig (data : JSVal) (dI dF : ℚ) : NormResult :=
  match data with
  | JSVal.arr xs => ⟨xs, dI, dF⟩
  | JSVal.obj fields =>
    ⟨(match getField fields "images" with
        | JSVal.arr ys => ys
        | _ => []),
      chooseTiming (toNumber (coalesce (getField fields "INTERVAL_MS")
        (getField fields "intervalMs"))) dI,
      chooseTiming (toNumber (coalesce (getField fields "FADE_MS")
        (getField fields "fadeMs"))) dF⟩
  | _ => ⟨[], dI, dF⟩

theorem chooseTiming_pos (n : JSNum) {d : ℚ} (hd : 0 < d) :
    0 < chooseTiming n d := by
  cases n with
  | finite q =>
    show 0 < if 0 < q then q else d
    split_ifs with h
    · exact h
    · exact hd
  | nan => exact hd
  | posInf => exact hd
  | negInf => exact hd

theorem chooseTiming_of_not_posFinite {n : JSNum} (d : ℚ)
    (h : posFinite n = false) : chooseTiming n d = d := by
  cases n with
  | finite q =>
    have h2 : decide (0 < q) = false := h
    show (if 0 < q then q else d) = d
    rw [if_neg (of_decide_eq_false h2)]
  | nan => rfl
  | posInf => rfl
  | negInf => rfl

/-- C5: normalization is total (it is a Lean function, so it returns on
every input without raising).  With positive caller defaults the result
always has positive timing values; a value that is neither an array nor an
object yields the empty pool and both defaults; an array is taken as the
pool verbatim with default timing; and in the keyed case a timing value
that is not finite-and-positive after coercion falls back to the
corresponding default. -/
theorem C5_normalization_total (data : JSVal) (dI dF : ℚ)
    (hI : 0 < dI) (hF : 0 < dF) :
    0 < (normalizeConfig data dI dF).intervalMs ∧
    0 < (normalizeConfig data dI dF).fadeMs ∧
    ((∀ xs, data ≠ JSVal.arr xs) → (∀ fs, data ≠ JSVal.obj fs) →
      normalizeConfig data dI dF = ⟨[], dI, dF⟩) ∧
    (∀ xs, data = JSVal.arr xs → normalizeConfig data dI dF = ⟨xs, dI, dF⟩) ∧
    (∀ fs, data = JSVal.obj fs →
      (posFinite (toNumber (coalesce (getField fs "INTERVAL_MS")
          (getField fs "intervalMs"))) = false →
        (normalizeConfig data dI dF).intervalMs = dI) ∧
      (posFinite (toNumber (coalesce (getField fs "FADE_MS")
          (getField fs "fadeMs"))) = false →
        (normalizeConfig data dI dF).fadeMs = dF)) := by
  cases data with
  | arr xs =>
    refine ⟨hI, hF, ?_, ?_, ?_⟩
    · intro h1 _
      exact absurd rfl (h1 xs)
    · intro xs2 h
      injection h with h
      subst h
      rfl
    · intro fs h
      exact absurd h (by intro h2; injection h2)
  | obj fs =>
    refine ⟨chooseTiming_pos _ hI, chooseTiming_pos _ hF, ?_, ?_, ?_⟩
    · intro _ h2
      exact absurd rfl (h2 fs)
    · intro xs h
      exact absurd h (by intro h2; injection h2)
    · intro fs2 h
      injection h with h
      subst h
      exact ⟨fun hbad => chooseTiming_of_not_posFinite dI hbad,
        fun hbad => chooseTiming_of_not_posFinite dF hbad⟩
  | null => exact ⟨hI, hF, fun _ _ => rfl, fun xs h => by injection h,
      fun fs h => by injection h⟩
  | undef => exact ⟨hI, hF, fun _ _ => rfl, fun xs h => by injection h,
      fun fs h => by injection h⟩
  | bool b => exact ⟨hI, hF, fun _ _ => rfl, fun xs h => by injection h,
      fun fs h => by injection h⟩
  | num n => exact ⟨hI, hF, fun _ _ => rfl, fun xs h => by injection h,
      fun fs h => by injection h⟩
  | str s => exact ⟨hI, hF, fun _ _ => rfl, fun xs h => by injection h,
      fun fs h => by injection h⟩

/-- Witness for C5: the `null` input (also the fetch-failure path) yields
positive timing values. -/
theorem C5_witness :
    0 < (normalizeConfig JSVal.null 5000 3000).intervalMs ∧
    0 < (normalizeConfig JSVal.null 5000 3000).fadeMs :=
  ⟨(C5_normalization_total JSVal.null 5000 3000 (by norm_num) (by norm_num)).1,
    (C5_normalization_total JSVal.null 5000 3000 (by norm_num) (by norm_num)).2.1⟩

/-- C10: `INTERVAL_MS` / `FADE_MS` take precedence via `??`, which falls
through to the camel-case key only on `null`/`undefined`.  When the
upper-case key is present but not nullish and its coercion is not
finite-and-positive, the result is the caller default — even when the
camel-case key holds a finite positive number. -/
theorem C10_uppercase_precedence (fs : List (String × JSVal)) (dI dF : ℚ)
    (hIp : nullish (getField fs "INTERVAL_MS") = false)
    (hIbad : posFinite (toNumber (getField fs "INTERVAL_MS")) = false)
    (_hIcamel : posFinite (toNumber (getField fs "intervalMs")) = true)
    (hFp : nullish (getField fs "FADE_MS") = false)
    (hFbad : posFinite (toNumber (getField fs "FADE_MS")) = false)
    (_hFcamel : posFinite (toNumber (getField fs "fadeMs")) = true) :
    (normalizeConfig (JSVal.obj fs) dI dF).intervalMs = dI ∧
    (normalizeConfig (JSVal.obj fs) dI dF).fadeMs = dF := by
  have hco1 : coalesce (getField fs "INTERVAL_MS") (getField fs "intervalMs") =
      getField fs "INTERVAL_MS" := by
    unfold coalesce
    rw [hIp]
    rfl
  have hco2 : coalesce (getField fs "FADE_MS") (getField fs "fadeMs") =
      getField fs "FADE_MS" := by
    unfold coalesce
    rw [hFp]
    rfl
  constructor
  · show chooseTiming (toNumber (coalesce (getField fs "INTERVAL_MS")
      (getField fs "intervalMs"))) dI = dI
    rw [hco1]
    exact chooseTiming_of_not_posFinite dI hIbad
  · show chooseTiming (toNumber (coalesce (getField fs "FADE_MS")
      (getField fs "fadeMs"))) dF = dF
    rw [hco2]
    exact chooseTiming_of_not_posFinite dF hFbad

/-- Witness for C10: `INTERVAL_MS: "x"` beats `intervalMs: 70`, and
`FADE_MS: 0` beats `fadeMs: 9`; both timings fall back to the defaults. -/
theorem C10_witness :
    (normalizeConfig (JSVal.obj [("INTERVAL_MS", JSVal.str "x"),
      ("intervalMs", JSVal.num (JSNum.finite 70)),
      ("FADE_MS", JSVal.num (JSNum.finite 0)),
      ("fadeMs", JSVal.num (JSNum.finite 9))]) 5000 3000).intervalMs = 5000 ∧
    (normalizeConfig (JSVal.obj [("INTERVAL_MS", JSVal.str "x"),
      ("intervalMs", JSVal.num (JSNum.finite 70)),
      ("FADE_MS", JSVal.num (JSNum.finite 0)),
      ("fadeMs", JSVal.num (JSNum.finite 9))]) 5000 3000).fadeMs = 3000 :=
  C10_uppercase_precedence [("INTERVAL_MS", JSVal.str "x"),
      ("intervalMs", JSVal.num (JSNum.finite 70)),
      ("FADE_MS", JSVal.num (JSNum.finite 0)),
      ("fadeMs", JSVal.num (JSNum.finite 9))] 5000 3000
    rfl rfl rfl rfl rfl rfl

end TCF
